import Mathlib

/-!
Verification of `models/deformable_detr.py` (Deformable DETR variant with a
two-assignment objectness loss).

The tensor code is embedded shallowly over `ℚ`:

* a box is a 4-tuple of rationals (`Box4`), either in `cxcywh` or `xyxy` form;
* per-layer model outputs are nested lists indexed `[batch][query][...]`;
* external torch operations whose exact real-valued behaviour does not matter
  for the properties below (`torch.sigmoid`, the focal loss from
  `models.segmentation`, the `accuracy` helper, the mask losses) are passed in
  as explicit function parameters, so every theorem is quantified over them;
* external geometry helpers from `util.box_ops` and the distributed helpers
  from `util.misc`, which are not part of this repository's single source
  file, are modelled from the spec (marked in their doc comments).
-/

/-- A 4-component box, components in source order (`cxcywh` or `xyxy`
depending on context). -/
structure Box4 where
  c0 : ℚ
  c1 : ℚ
  c2 : ℚ
  c3 : ℚ
deriving DecidableEq

instance : Inhabited Box4 := ⟨⟨0, 0, 0, 0⟩⟩

/-- Modelled from the spec: `util.box_ops.box_cxcywh_to_xyxy` — "convert from
center-size to corner format": `(cx - w/2, cy - h/2, cx + w/2, cy + h/2)`. -/
def box_cxcywh_to_xyxy (b : Box4) : Box4 :=
  ⟨b.c0 - b.c2 / 2, b.c1 - b.c3 / 2, b.c0 + b.c2 / 2, b.c1 + b.c3 / 2⟩

/-- Area of an `xyxy` box. -/
def boxArea (b : Box4) : ℚ := (b.c2 - b.c0) * (b.c3 - b.c1)

/-- Intersection area of two `xyxy` boxes (clamped at 0). -/
def interArea (a b : Box4) : ℚ :=
  max 0 (min a.c2 b.c2 - max a.c0 b.c0) * max 0 (min a.c3 b.c3 - max a.c1 b.c1)

/-- Union area of two `xyxy` boxes. -/
def unionArea (a b : Box4) : ℚ := boxArea a + boxArea b - interArea a b

/-- Modelled from the spec: plain intersection-over-union of two `xyxy`
boxes, as computed by `torchvision`'s box IoU used inside NMS. -/
def iouQ (a b : Box4) : ℚ := interArea a b / unionArea a b

/-- Modelled from the spec: `util.box_ops.generalized_box_iou` on a single
pair of `xyxy` boxes — IoU minus the normalized hole of the smallest
enclosing box: `iou - (enclose - union) / enclose`. -/
def generalized_box_iou (a b : Box4) : ℚ :=
  let enclose := (max a.c2 b.c2 - min a.c0 b.c0) * (max a.c3 b.c3 - min a.c1 b.c1)
  iouQ a b - (enclose - unionArea a b) / enclose

/-- Pairwise GIoU of two equally long lists of `cxcywh` boxes: the diagonal of
`generalized_box_iou(box_cxcywh_to_xyxy(src), box_cxcywh_to_xyxy(tgt))`. -/
def pairGious (src tgt : List Box4) : List ℚ :=
  List.zipWith (fun a b => generalized_box_iou (box_cxcywh_to_xyxy a) (box_cxcywh_to_xyxy b))
    src tgt

theorem interArea_comm (a b : Box4) : interArea a b = interArea b a := by
  simp [interArea, min_comm, max_comm]

theorem unionArea_comm (a b : Box4) : unionArea a b = unionArea b a := by
  simp [unionArea, interArea_comm]; ring

theorem iouQ_comm (a b : Box4) : iouQ a b = iouQ b a := by
  simp [iouQ, interArea_comm, unionArea_comm]

/-! ## Data model: per-layer outputs, targets, assignments -/

/-- One decoder (or encoder-proposal) layer's raw outputs:
`pred_logits : [batch][query][class]`, `pred_boxes : [batch][query]` in
normalized `cxcywh`, `obj : [batch][query]` (the scalar objectness, the
trailing size-1 tensor dimension is dropped). -/
structure LayerOutputs where
  pred_logits : List (List (List ℚ))
  pred_boxes : List (List Box4)
  obj : List (List ℚ)
deriving DecidableEq

instance : Inhabited LayerOutputs := ⟨⟨[], [], []⟩⟩

/-- The full output dictionary of `DeformableDETR.forward`: the last layer's
outputs, the optional `aux_outputs` list, the optional `enc_outputs` entry. -/
structure ModelOutputs where
  main : LayerOutputs
  aux_outputs : List LayerOutputs
  enc_outputs : Option LayerOutputs
deriving DecidableEq

/-- One image's ground truth: `labels` (class ids) and `boxes` (`cxcywh`). -/
structure Target where
  labels : List ℕ
  boxes : List Box4
deriving DecidableEq

instance : Inhabited Target := ⟨⟨[], []⟩⟩

/-- One image's assignment: a pair of equally long index lists
(query indices, target indices), as returned by the matcher. -/
abbrev Assign := List ℕ × List ℕ

namespace SetCriterion

/-- `_get_src_permutation_idx`: flatten a per-image assignment list into the
pair (batch indices, query indices). -/
def get_src_permutation_idx (indices : List Assign) : List ℕ × List ℕ :=
  (List.flatten (indices.enum.map fun p => p.2.1.map fun _ => p.1),
   List.flatten (indices.map fun p => p.1))

/-- Advanced indexing `xs[batch_idx, src_idx]` for a `[batch][query]` nested
list (out-of-range positions give the default element, which every theorem
rules out through its hypotheses). -/
def gatherIdx {α : Type} [Inhabited α] (xs : List (List α)) (idx : List ℕ × List ℕ) :
    List α :=
  (idx.1.zip idx.2).map fun p => (xs.getD p.1 []).getD p.2 default

/-- `torch.cat([t['boxes'][i] for t, (_, i) in zip(targets, indices)])`. -/
def targetBoxesOf (targets : List Target) (indices : List Assign) : List Box4 :=
  List.flatten ((targets.zip indices).map fun p => p.2.2.map fun j => p.1.boxes.getD j default)

/-- `outputs['obj'][b][q]` as a rational. -/
def objAt (o : LayerOutputs) (b q : ℕ) : ℚ := (o.obj.getD b []).getD q 0

end SetCriterion

/-! ## Box decoding in `DeformableDETR.forward` (claim C7) -/

/-- Modelled from the spec: `util.misc.inverse_sigmoid` — "inverse of the
logistic function; fails/produces invalid values if reference is outside
(0,1)".  The real-valued logit itself is abstract (`logitFn`); outside the
open unit interval the result is invalid, modelled as `none`. -/
def inverse_sigmoid (logitFn : ℚ → ℚ) (x : ℚ) : Option ℚ :=
  if 0 < x ∧ x < 1 then some (logitFn x) else none

/-- Elementwise application of a fallible scalar operation to a tensor: the
whole result is invalid as soon as one component is. -/
def optionMapList {α β : Type} (f : α → Option β) : List α → Option (List β)
  | [] => some []
  | a :: t =>
    match f a, optionMapList f t with
    | some b, some bs => some (b :: bs)
    | _, _ => none

/-- One decoder layer's box decoding, from `DeformableDETR.forward`:
`reference = inverse_sigmoid(reference)`; if the reference has 4 components
the whole regressed delta `tmp` is shifted by it, if it has 2 components only
`tmp[..., :2]` is shifted; any other arity trips the source's assertion
(`none`); finally `tmp.sigmoid()`.  `logitFn` and `sigFn` stand for the real
logit and logistic functions. -/
def decodeBoxLayer (logitFn sigFn : ℚ → ℚ) (reference delta : List ℚ) :
    Option (List ℚ) :=
  match optionMapList (inverse_sigmoid logitFn) reference with
  | none => none
  | some r =>
    if reference.length = 4 then
      some ((List.zipWith (· + ·) delta r).map sigFn)
    else if reference.length = 2 then
      some ((delta.enum.map fun p => if p.1 < 2 then p.2 + r.getD p.1 0 else p.2).map sigFn)
    else
      none

/-- The per-level reference selection of `DeformableDETR.forward`:
`init_reference` for level 0, `inter_references[lvl - 1]` above. -/
def referenceAt (initReference : List ℚ) (interReferences : List (List ℚ)) (lvl : ℕ) :
    List ℚ :=
  match lvl with
  | 0 => initReference
  | l + 1 => interReferences.getD l []

/-- All decoder levels' decoded boxes (`outputs_coords` in the source, for a
single query — the per-query loop is elementwise). -/
def outputsCoords (logitFn sigFn : ℚ → ℚ) (initReference : List ℚ)
    (interReferences : List (List ℚ)) (deltas : List (List ℚ)) :
    List (Option (List ℚ)) :=
  deltas.enum.map fun p =>
    decodeBoxLayer logitFn sigFn (referenceAt initReference interReferences p.1) p.2

/-! ## Objectness losses `loss_obj` / `loss_eobj` -/

/-- A value stored in the loss dictionary: a scalar loss, or (in the dead
`len(obj_list) == 0` branch of the objectness handlers) a raw tensor. -/
inductive LossVal where
  | scalar : ℚ → LossVal
  | tensor : List ℚ → LossVal
deriving DecidableEq

namespace SetCriterion

/-- `torch.sum(torch.sigmoid(logits_row)[:20])`: the top-20 class-probability
mass of one gathered query, with `sig` standing for `torch.sigmoid`. -/
def top20Sum (sig : ℚ → ℚ) (row : List ℚ) : ℚ := ((row.take 20).map sig).sum

/-- The per-pair loop shared by `loss_obj` and `loss_eobj`.  Walking the GIoU
list with counter `k`: a pair above 0.6 appends `blend giou sums[k]` to the
target list and the objectness at `posIdx` position `k` to the positive list;
a pair at or below 0.6 appends the objectness at `negIdx` position `k` to the
negative list.  (`loss_obj`/`loss_eobj` instantiate `posIdx`/`negIdx` with the
index tuples actually used by the source at each of the two loops.) -/
def objLoop (blend : ℚ → ℚ → ℚ) (o : LayerOutputs) (posIdx negIdx : List ℕ × List ℕ)
    (sums : List ℚ) : ℕ → List ℚ → List ℚ × List ℚ × List ℚ
  | _, [] => ([], [], [])
  | k, g :: gs =>
    let t := objLoop blend o posIdx negIdx sums (k + 1) gs
    if g > 0.6 then
      (blend g (sums.getD k 0) :: t.1,
       objAt o (posIdx.1.getD k 0) (posIdx.2.getD k 0) :: t.2.1,
       t.2.2)
    else
      (t.1, t.2.1, objAt o (negIdx.1.getD k 0) (negIdx.2.getD k 0) :: t.2.2)

/-- The data both objectness handlers derive from one assignment:
gathered source boxes, concatenated target boxes, top-20 probability sums and
the pairwise GIoU diagonal. -/
def objPairData (sig : ℚ → ℚ) (o : LayerOutputs) (targets : List Target)
    (indices : List Assign) : List ℚ × List ℚ :=
  let idx := get_src_permutation_idx indices
  let srcBoxes := gatherIdx o.pred_boxes idx
  let tgtBoxes := targetBoxesOf targets indices
  ((gatherIdx o.pred_logits idx).map (top20Sum sig), pairGious srcBoxes tgtBoxes)

/-- The three lists (`iou_list`, `obj_list`, `negative_list`) built by the two
loops of `loss_obj` / `loss_eobj`.  The first loop indexes positives and
negatives through the primary tuples; the second loop indexes positives
through the secondary tuples but negatives through the primary ones, exactly
as written in the source. -/
def objLists (blend : ℚ → ℚ → ℚ) (sig : ℚ → ℚ) (o : LayerOutputs)
    (targets : List Target) (indices second_indices : List Assign) :
    List ℚ × List ℚ × List ℚ :=
  let idx := get_src_permutation_idx indices
  let second_idx := get_src_permutation_idx second_indices
  let fst := objPairData sig o targets indices
  let snd := objPairData sig o targets second_indices
  let a := objLoop blend o idx idx fst.1 0 fst.2
  let b := objLoop blend o second_idx idx snd.1 0 snd.2
  (a.1 ++ b.1, a.2.1 ++ b.2.1, a.2.2 ++ b.2.2)

/-- The `if len(l) == 0: l.append(outputs['obj'][0][0] - outputs['obj'][0][0])`
placeholder insertion. -/
def withPlaceholder (o : LayerOutputs) (l : List ℚ) : List ℚ :=
  if l.isEmpty then l ++ [objAt o 0 0 - objAt o 0 0] else l

/-- `F.l1_loss(a, b, reduction='none')` on 1-d tensors, including the
broadcast of a single element against the other shape (shapes that do not
broadcast give the empty tensor; no call site reaches that case). -/
def l1None (a b : List ℚ) : List ℚ :=
  if a.length = b.length then List.zipWith (fun x y => |x - y|) a b
  else if a.length = 1 then b.map fun y => |a.getD 0 0 - y|
  else if b.length = 1 then a.map fun x => |x - b.getD 0 0|
  else []

/-- The tail shared by `loss_obj` and `loss_eobj` after the loops: insert the
placeholders, assemble the tensors, and either return the raw positive tensor
(`if len(obj_list) == 0`, checked again after the placeholder was appended) or
the two normalized L1 sums. -/
def objLossTail (key : String) (o : LayerOutputs) (ls : List ℚ × List ℚ × List ℚ)
    (num_boxes : ℚ) : List (String × LossVal) :=
  let obj_tensor := withPlaceholder o ls.2.1
  let iou_tensor := ls.1
  let negative_tensor := withPlaceholder o ls.2.2
  let negative_gt := negative_tensor.map fun _ => 0.5
  if obj_tensor.isEmpty then
    [(key, LossVal.tensor obj_tensor)]
  else
    [(key, LossVal.scalar
        ((l1None obj_tensor iou_tensor).sum / num_boxes
          + (l1None negative_tensor negative_gt).sum / num_boxes))]

/-- `SetCriterion.loss_obj`: positives blend GIoU and top-20 probability mass
(`iou * 0.6 + 0.4 * sum`). -/
def loss_obj (sig : ℚ → ℚ) (o : LayerOutputs) (targets : List Target)
    (indices second_indices : List Assign) (num_boxes : ℚ) : List (String × LossVal) :=
  objLossTail "loss_object" o
    (objLists (fun g s => g * 0.6 + 0.4 * s) sig o targets indices second_indices) num_boxes

/-- `SetCriterion.loss_eobj`: positives use the top-20 probability mass alone. -/
def loss_eobj (sig : ℚ → ℚ) (o : LayerOutputs) (targets : List Target)
    (indices second_indices : List Assign) (num_boxes : ℚ) : List (String × LossVal) :=
  objLossTail "loss_eobject" o
    (objLists (fun _ s => s) sig o targets indices second_indices) num_boxes

end SetCriterion

/-! ## Label, cardinality and box losses; dispatch; `SetCriterion.forward` -/

/-- The external functions the criterion calls but does not define:
`torch.sigmoid` (`sig`), the focal loss `sigmoid_focal_loss` imported from
`models.segmentation` (`sfl`, applied to logits, one-hot targets and
`num_boxes`), the `accuracy` helper from `util.misc` (`acc`), and the mask
losses, which depend on external interpolation / nested-tensor utilities
(`maskLoss`).  Every theorem quantifies over this bundle. -/
structure TorchExt where
  sig : ℚ → ℚ
  sfl : List (List (List ℚ)) → List (List (List ℚ)) → ℚ → ℚ
  acc : List (List ℚ) → List ℕ → ℚ
  maskLoss : LayerOutputs → List Target → List Assign → List Assign → ℚ →
    List (String × LossVal)

namespace SetCriterion

/-- One row of the scatter in `loss_labels`: a zero row of length
`num_classes + 1` with a 1 written at `cls`, with the overflow column then
dropped (`target_classes_onehot[:, :, :-1]`). -/
def onehotRow (num_classes cls : ℕ) : List ℚ :=
  (((List.range (num_classes + 1)).map fun c => if c = cls then (1 : ℚ) else 0)).dropLast

/-- Write `v` at position `[b][q]` of a nested list. -/
def setAt (m : List (List ℕ)) (b q v : ℕ) : List (List ℕ) :=
  m.set b ((m.getD b []).set q v)

/-- The advanced-index assignment `target_classes[idx] = target_classes_o`,
as the sequence of element writes it denotes. -/
def applyUpdates (m : List (List ℕ)) (ups : List ((ℕ × ℕ) × ℕ)) : List (List ℕ) :=
  ups.foldl (fun acc u => setAt acc u.1.1 u.1.2 u.2) m

/-- `torch.cat([t["labels"][J] for t, (_, J) in zip(targets, indices)])`. -/
def targetClassesO (targets : List Target) (indices : List Assign) : List ℕ :=
  List.flatten ((targets.zip indices).map fun p => p.2.2.map fun j => p.1.labels.getD j 0)

/-- The `[batch][query]` class-id tensor of `loss_labels`: filled with
`num_classes`, then overwritten at the matched positions. -/
def targetClasses (num_classes : ℕ) (o : LayerOutputs) (targets : List Target)
    (indices : List Assign) : List (List ℕ) :=
  let idx := get_src_permutation_idx indices
  applyUpdates
    (List.replicate o.pred_logits.length
      (List.replicate (o.pred_logits.getD 0 []).length num_classes))
    ((idx.1.zip idx.2).zip (targetClassesO targets indices))

/-- `SetCriterion.loss_labels`: one-hot encode the per-query class tensor
(dropping the overflow column) and charge `sigmoid_focal_loss * num_queries`;
with `log` also the `class_error` entry. -/
def loss_labels (E : TorchExt) (num_classes : ℕ) (o : LayerOutputs) (targets : List Target)
    (indices : List Assign) (num_boxes : ℚ) (log : Bool) : List (String × LossVal) :=
  let idx := get_src_permutation_idx indices
  let onehot := (targetClasses num_classes o targets indices).map
    (List.map (onehotRow num_classes))
  let loss_ce :=
    E.sfl o.pred_logits onehot num_boxes * ((o.pred_logits.getD 0 []).length : ℚ)
  [("loss_ce", LossVal.scalar loss_ce)] ++
    (if log then
      [("class_error", LossVal.scalar
        (100 - E.acc (gatherIdx o.pred_logits idx) (targetClassesO targets indices)))]
    else [])

/-- First index of the maximum of a row (`torch.argmax` over the class dim). -/
def argmaxIdx (l : List ℚ) : ℕ :=
  (l.enum.foldl (fun best p => if p.2 > best.2 then p else best) (0, l.getD 0 0)).1

/-- The class-dimension size `pred_logits.shape[-1]`. -/
def numClassesOf (o : LayerOutputs) : ℕ := ((o.pred_logits.getD 0 []).getD 0 []).length

/-- Mean of a 1-d tensor. -/
def meanQ (l : List ℚ) : ℚ := l.sum / l.length

/-- `SetCriterion.loss_cardinality`: L1 distance (batch mean) between the
count of queries whose argmax is not the last class and the true counts. -/
def loss_cardinality (o : LayerOutputs) (targets : List Target) :
    List (String × LossVal) :=
  let tgt_lengths := targets.map fun t => (t.labels.length : ℚ)
  let card_pred := o.pred_logits.map fun img =>
    ((img.filter fun row => decide (argmaxIdx row ≠ numClassesOf o - 1)).length : ℚ)
  [("cardinality_error", LossVal.scalar (meanQ (l1None card_pred tgt_lengths)))]

/-- `SetCriterion.loss_boxes`: summed component-wise L1 and `1 - GIoU` over
the matched pairs, both divided by `num_boxes`. -/
def loss_boxes (o : LayerOutputs) (targets : List Target) (indices : List Assign)
    (num_boxes : ℚ) : List (String × LossVal) :=
  let idx := get_src_permutation_idx indices
  let src_boxes := gatherIdx o.pred_boxes idx
  let target_boxes := targetBoxesOf targets indices
  let loss_bbox := (List.zipWith
    (fun a b : Box4 => |a.c0 - b.c0| + |a.c1 - b.c1| + |a.c2 - b.c2| + |a.c3 - b.c3|)
    src_boxes target_boxes).sum
  let loss_giou := ((pairGious src_boxes target_boxes).map fun g => 1 - g).sum
  [("loss_bbox", LossVal.scalar (loss_bbox / num_boxes)),
   ("loss_giou", LossVal.scalar (loss_giou / num_boxes))]

/-- The names in `SetCriterion.get_loss`'s dispatch table. -/
inductive LossKind where
  | labels | cardinality | boxes | objs | eobjs | masks
deriving DecidableEq

/-- `SetCriterion.get_loss`: dispatch one loss name to its handler. -/
def get_loss (E : TorchExt) (num_classes : ℕ) (l : LossKind) (o : LayerOutputs)
    (targets : List Target) (indices second_indices : List Assign) (num_boxes : ℚ)
    (log : Bool) : List (String × LossVal) :=
  match l with
  | .labels => loss_labels E num_classes o targets indices num_boxes log
  | .cardinality => loss_cardinality o targets
  | .boxes => loss_boxes o targets indices num_boxes
  | .objs => loss_obj E.sig o targets indices second_indices num_boxes
  | .eobjs => loss_eobj E.sig o targets indices second_indices num_boxes
  | .masks => E.maskLoss o targets indices second_indices num_boxes

end SetCriterion

/-- Modelled from the spec: the distributed helpers used by
`SetCriterion.forward` (`is_dist_avail_and_initialized`, `all_reduce`,
`get_world_size`), as the spec's injected collective reducer; a single-process
environment has the identity sum and world size 1. -/
structure DistEnv where
  allReduceSum : ℚ → ℚ
  world_size : ℕ

/-- The trivial single-worker environment. -/
def singleWorker : DistEnv := ⟨id, 1⟩

/-- The matcher is external to this file's source: any function producing the
primary and secondary assignments from one layer's outputs. -/
abbrev Matcher := LayerOutputs → List Target → List Assign × List Assign

namespace SetCriterion

/-- The `num_boxes` computation of `SetCriterion.forward`: total ground-truth
labels over the batch, collectively summed, divided by the world size and
clamped below at 1. -/
def computeNumBoxes (env : DistEnv) (targets : List Target) : ℚ :=
  max (env.allReduceSum ((targets.map fun t => (t.labels.length : ℚ)).sum)
        / (env.world_size : ℚ)) 1

/-- The encoder branch's rebuilt targets: every label zeroed
(`bt['labels'] = torch.zeros_like(bt['labels'])`). -/
def binTargets (targets : List Target) : List Target :=
  targets.map fun t => { t with labels := t.labels.map fun _ => 0 }

/-- The body of `SetCriterion.forward` once `num_boxes` is fixed: main-layer
losses, auxiliary-layer losses (masks skipped, keys suffixed `_i`), and the
encoder-proposal losses (masks and objs skipped, binary targets, keys
suffixed `_enc`). -/
def criterionLosses (E : TorchExt) (num_classes : ℕ) (matcher : Matcher)
    (losses : List LossKind) (outputs : ModelOutputs) (targets : List Target)
    (num_boxes : ℚ) : List (String × LossVal) :=
  let ind := matcher outputs.main targets
  let mainL := losses.flatMap fun l =>
    get_loss E num_classes l outputs.main targets ind.1 ind.2 num_boxes true
  let auxL := outputs.aux_outputs.enum.flatMap fun p =>
    let ai := matcher p.2 targets
    (losses.filter fun l => decide (l ≠ LossKind.masks)).flatMap fun l =>
      (get_loss E num_classes l p.2 targets ai.1 ai.2 num_boxes false).map
        fun kv => (kv.1 ++ "_" ++ toString p.1, kv.2)
  let encL := match outputs.enc_outputs with
    | none => []
    | some enc =>
      let bt := binTargets targets
      let ei := matcher enc bt
      (losses.filter fun l => decide (l ≠ LossKind.masks ∧ l ≠ LossKind.objs)).flatMap
        fun l =>
          (get_loss E num_classes l enc bt ei.1 ei.2 num_boxes false).map
            fun kv => (kv.1 ++ "_enc", kv.2)
  mainL ++ auxL ++ encL

/-- `SetCriterion.forward`: compute `num_boxes` and all requested losses. -/
def forward (E : TorchExt) (num_classes : ℕ) (matcher : Matcher) (env : DistEnv)
    (losses : List LossKind) (outputs : ModelOutputs) (targets : List Target) :
    List (String × LossVal) :=
  criterionLosses E num_classes matcher losses outputs targets
    (computeNumBoxes env targets)

end SetCriterion

/-- The loss list assembled by `build`:
`['labels', 'boxes', 'cardinality', 'objs', 'eobjs']` (masks only when
segmentation is enabled). -/
def buildLosses : List SetCriterion.LossKind :=
  [.labels, .boxes, .cardinality, .objs, .eobjs]

/-! ## Post-processors -/

/-- One detection: score, class label, absolute-pixel `xyxy` box. -/
structure Det where
  score : ℚ
  label : ℕ
  box : Box4
deriving DecidableEq

/-- Insert into a list sorted by decreasing `f`. -/
def insertDescBy {α : Type} (f : α → ℚ) (a : α) : List α → List α
  | [] => [a]
  | b :: bs => if f b ≤ f a then a :: b :: bs else b :: insertDescBy f a bs

/-- Sort by decreasing `f` (the order produced by `torch.sort` / `torch.topk`
on scores, descending). -/
def sortDescBy {α : Type} (f : α → ℚ) : List α → List α
  | [] => []
  | a :: as => insertDescBy f a (sortDescBy f as)

/-- Multiply an `xyxy` box by `scale_fct = [img_w, img_h, img_w, img_h]`. -/
def scaleBox (w h : ℚ) (b : Box4) : Box4 := ⟨b.c0 * w, b.c1 * h, b.c2 * w, b.c3 * h⟩

/-- The flattening shared by both post-processors: candidate `k` of the
`queries × classes` grid scores `sigmoid(logits[k // nc][k % nc])`, carries
label `k % nc`, and the converted, rescaled box of query `k // nc`. -/
def flatCandidates (sig : ℚ → ℚ) (logits : List (List ℚ)) (boxes : List Box4)
    (h w : ℚ) : List Det :=
  let nc := (logits.getD 0 []).length
  (List.range (logits.length * nc)).map fun k =>
    { score := sig ((logits.getD (k / nc) []).getD (k % nc) 0)
      label := k % nc
      box := scaleBox w h (box_cxcywh_to_xyxy (boxes.getD (k / nc) default)) }

/-- Greedy suppression scan: keep a candidate iff no already-kept detection of
the same class overlaps it with IoU above the threshold. -/
def nmsGreedy (thr : ℚ) : List Det → List Det → List Det
  | kept, [] => kept.reverse
  | kept, c :: rest =>
    if kept.any fun k => decide (k.label = c.label ∧ iouQ k.box c.box > thr) then
      nmsGreedy thr kept rest
    else
      nmsGreedy thr (c :: kept) rest

/-- Modelled from the spec: `torchvision.ops.boxes.batched_nms` — class-aware
non-maximum suppression: scan candidates by decreasing score and suppress any
candidate whose IoU with a same-class kept detection exceeds the threshold. -/
def batched_nms (thr : ℚ) (cands : List Det) : List Det :=
  nmsGreedy thr [] (sortDescBy Det.score cands)

namespace NMSPostProcess

/-- `NMSPostProcess.forward`, one image: flatten, cap at the 10,000 highest
scores when `queries × classes` exceeds 10,000, run class-aware NMS at 0.7,
keep the first 100 survivors. -/
def forwardImage (sig : ℚ → ℚ) (logits : List (List ℚ)) (boxes : List Box4)
    (h w : ℚ) : List Det :=
  let nq := logits.length
  let nc := (logits.getD 0 []).length
  let cands := flatCandidates sig logits boxes h w
  let capped := if nq * nc > 10000 then (sortDescBy Det.score cands).take 10000 else cands
  (batched_nms 0.7 capped).take 100

/-- `NMSPostProcess.forward` over the batch. -/
def forward (sig : ℚ → ℚ) (pred_logits : List (List (List ℚ)))
    (pred_boxes : List (List Box4)) (target_sizes : List (ℚ × ℚ)) :
    List (List Det) :=
  ((pred_logits.zip pred_boxes).zip target_sizes).map fun p =>
    forwardImage sig p.1.1 p.1.2 p.2.1 p.2.2

end NMSPostProcess

namespace PostProcess

/-- `PostProcess.forward`, one image: `torch.topk(..., 100)` over the
flattened score grid — undefined (`none`) when fewer than 100 scores exist,
otherwise the 100 highest-scoring candidates. -/
def forwardImage (sig : ℚ → ℚ) (logits : List (List ℚ)) (boxes : List Box4)
    (h w : ℚ) : Option (List Det) :=
  let nq := logits.length
  let nc := (logits.getD 0 []).length
  if nq * nc < 100 then none
  else some ((sortDescBy Det.score (flatCandidates sig logits boxes h w)).take 100)

/-- `PostProcess.forward` over the batch. -/
def forward (sig : ℚ → ℚ) (pred_logits : List (List (List ℚ)))
    (pred_boxes : List (List Box4)) (target_sizes : List (ℚ × ℚ)) :
    Option (List (List Det)) :=
  ((pred_logits.zip pred_boxes).zip target_sizes).mapM fun p =>
    forwardImage sig p.1.1 p.1.2 p.2.1 p.2.2

end PostProcess

/-! ## Theorems -/

theorem getD_map_of_lt {α β : Type} (f : α → β) (l : List α) (i : ℕ) (h : i < l.length)
    (d : β) (d' : α) : (l.map f).getD i d = f (l.getD i d') := by
  rw [List.getD_eq_getElem?_getD, List.getD_eq_getElem?_getD, List.getElem?_map,
    List.getElem?_eq_getElem h]
  rfl

theorem optionMap_inverse_sigmoid_of_mem (g : ℚ → ℚ) (l : List ℚ)
    (h : ∀ x ∈ l, 0 < x ∧ x < 1) :
    optionMapList (inverse_sigmoid g) l = some (l.map g) := by
  induction l with
  | nil => rfl
  | cons a t ih =>
    have ha := h a (List.mem_cons_self a t)
    rw [optionMapList, ih fun x hx => h x (List.mem_cons_of_mem a hx)]
    simp [inverse_sigmoid, ha]

theorem optionMap_inverse_sigmoid_none (g : ℚ → ℚ) (l : List ℚ) (x : ℚ) (hx : x ∈ l)
    (hout : ¬(0 < x ∧ x < 1)) : optionMapList (inverse_sigmoid g) l = none := by
  induction l with
  | nil => cases hx
  | cons a t ih =>
    rw [optionMapList]
    rcases List.mem_cons.mp hx with rfl | hmem
    · simp [inverse_sigmoid, hout]
    · rw [ih hmem]
      cases h0 : inverse_sigmoid g a <;> simp

/-- C7: for every decoder layer, the box output converts the layer's reference
to logit space with the inverse logistic function; a 4-component reference
shifts the full regressed delta, a 2-component reference shifts only the first
two delta components; the logistic squash is applied last; and a reference
outside the open interval (0,1) makes the whole decoding invalid — the code
performs no guard. -/
theorem box_decoding_rule (logitFn sigFn : ℚ → ℚ) :
    (∀ (initRef : List ℚ) (interRefs deltas : List (List ℚ)) (lvl : ℕ),
      lvl < deltas.length →
      (outputsCoords logitFn sigFn initRef interRefs deltas).getD lvl none
        = decodeBoxLayer logitFn sigFn (referenceAt initRef interRefs lvl)
            (deltas.getD lvl []))
  ∧ (∀ (reference delta : List ℚ), reference.length = 4 →
      (∀ x ∈ reference, 0 < x ∧ x < 1) →
      decodeBoxLayer logitFn sigFn reference delta
        = some (List.zipWith (fun d r => sigFn (d + logitFn r)) delta reference))
  ∧ (∀ (reference delta : List ℚ), reference.length = 2 →
      (∀ x ∈ reference, 0 < x ∧ x < 1) →
      decodeBoxLayer logitFn sigFn reference delta
        = some (delta.enum.map fun p =>
            if p.1 < 2 then sigFn (p.2 + logitFn (reference.getD p.1 0))
            else sigFn p.2))
  ∧ (∀ (reference delta : List ℚ) (x : ℚ), x ∈ reference → ¬(0 < x ∧ x < 1) →
      decodeBoxLayer logitFn sigFn reference delta = none) := by
  refine ⟨?_, ?_, ?_, ?_⟩
  · intro initRef interRefs deltas lvl hlvl
    rw [outputsCoords, List.getD_eq_getElem?_getD, List.getElem?_map, List.getElem?_enum,
      List.getElem?_eq_getElem hlvl, List.getD_eq_getElem _ _ hlvl]
    rfl
  · intro reference delta hlen hin
    rw [decodeBoxLayer, optionMap_inverse_sigmoid_of_mem logitFn reference hin]
    simp only [hlen, if_true, reduceIte, List.map_zipWith, List.zipWith_map_right]
  · intro reference delta hlen hin
    rw [decodeBoxLayer, optionMap_inverse_sigmoid_of_mem logitFn reference hin]
    have h2 : reference.length ≠ 4 := by omega
    simp only [hlen, h2, if_false, reduceIte, List.map_map]
    refine congrArg some (List.map_congr_left fun p hp => ?_)
    by_cases hlt : p.1 < 2
    · have hp1 : p.1 < reference.length := by omega
      simp [Function.comp, hlt, List.getD_eq_getElem?_getD, List.getElem?_map,
        List.getElem?_eq_getElem hp1]
    · simp [Function.comp, hlt]
  · intro reference delta x hx hout
    rw [decodeBoxLayer, optionMap_inverse_sigmoid_none logitFn reference x hx hout]

/-- Witness for C7 at a concrete interior 4-component reference. -/
theorem box_decoding_rule_witness :
    decodeBoxLayer id id [1/2, 1/2, 1/2, 1/2] [1, 2, 3, 4]
      = some (List.zipWith (fun d r => id (d + id r)) [1, 2, 3, 4] [1/2, 1/2, 1/2, 1/2]) :=
  (box_decoding_rule id id).2.1 [1/2, 1/2, 1/2, 1/2] [1, 2, 3, 4] (by norm_num)
    (by intro x hx; simp only [List.mem_cons, List.not_mem_nil, or_false] at hx
        rcases hx with rfl | rfl | rfl | rfl <;> norm_num)

namespace SetCriterion

theorem objLoop_fst (blend : ℚ → ℚ → ℚ) (o : LayerOutputs) (posIdx negIdx : List ℕ × List ℕ)
    (sums : List ℚ) (k : ℕ) (gs : List ℚ) :
    (objLoop blend o posIdx negIdx sums k gs).1
      = (List.enumFrom k gs).filterMap fun p =>
          if p.2 > 0.6 then some (blend p.2 (sums.getD p.1 0)) else none := by
  induction gs generalizing k with
  | nil => rfl
  | cons g rest ih =>
    rw [objLoop, List.enumFrom_cons, List.filterMap_cons]
    by_cases hg : g > 0.6 <;> simp [hg, ih (k + 1)]

theorem objLoop_pos (blend : ℚ → ℚ → ℚ) (o : LayerOutputs) (posIdx negIdx : List ℕ × List ℕ)
    (sums : List ℚ) (k : ℕ) (gs : List ℚ) :
    (objLoop blend o posIdx negIdx sums k gs).2.1
      = (List.enumFrom k gs).filterMap fun p =>
          if p.2 > 0.6 then some (objAt o (posIdx.1.getD p.1 0) (posIdx.2.getD p.1 0))
          else none := by
  induction gs generalizing k with
  | nil => rfl
  | cons g rest ih =>
    rw [objLoop, List.enumFrom_cons, List.filterMap_cons]
    by_cases hg : g > 0.6 <;> simp [hg, ih (k + 1)]

theorem objLoop_neg (blend : ℚ → ℚ → ℚ) (o : LayerOutputs) (posIdx negIdx : List ℕ × List ℕ)
    (sums : List ℚ) (k : ℕ) (gs : List ℚ) :
    (objLoop blend o posIdx negIdx sums k gs).2.2
      = (List.enumFrom k gs).filterMap fun p =>
          if p.2 > 0.6 then none
          else some (objAt o (negIdx.1.getD p.1 0) (negIdx.2.getD p.1 0)) := by
  induction gs generalizing k with
  | nil => rfl
  | cons g rest ih =>
    rw [objLoop, List.enumFrom_cons, List.filterMap_cons]
    by_cases hg : g > 0.6 <;> simp [hg, ih (k + 1)]

/-- C2: in both objectness handlers, the list of target objectness values is
built from the pairs (primary then secondary) whose GIoU exceeds 0.6; in
`loss_obj` the value for the k-th such pair is `giou * 0.6 + 0.4 * top20mass`,
in `loss_eobj` it is the top-20 class-probability mass alone. -/
theorem objectness_positive_targets (sig : ℚ → ℚ) (o : LayerOutputs)
    (targets : List Target) (indices second_indices : List Assign) :
    ((objLists (fun g s => g * 0.6 + 0.4 * s) sig o targets indices second_indices).1
      = ((objPairData sig o targets indices).2.enum.filterMap fun p =>
          if p.2 > 0.6 then
            some (p.2 * 0.6 + 0.4 * ((objPairData sig o targets indices).1.getD p.1 0))
          else none)
        ++ ((objPairData sig o targets second_indices).2.enum.filterMap fun p =>
          if p.2 > 0.6 then
            some (p.2 * 0.6 + 0.4 * ((objPairData sig o targets second_indices).1.getD p.1 0))
          else none))
  ∧ ((objLists (fun _ s => s) sig o targets indices second_indices).1
      = ((objPairData sig o targets indices).2.enum.filterMap fun p =>
          if p.2 > 0.6 then some ((objPairData sig o targets indices).1.getD p.1 0)
          else none)
        ++ ((objPairData sig o targets second_indices).2.enum.filterMap fun p =>
          if p.2 > 0.6 then some ((objPairData sig o targets second_indices).1.getD p.1 0)
          else none))
  ∧ (∀ num_boxes, loss_obj sig o targets indices second_indices num_boxes
      = objLossTail "loss_object" o
          (objLists (fun g s => g * 0.6 + 0.4 * s) sig o targets indices second_indices)
          num_boxes)
  ∧ (∀ num_boxes, loss_eobj sig o targets indices second_indices num_boxes
      = objLossTail "loss_eobject" o
          (objLists (fun _ s => s) sig o targets indices second_indices) num_boxes) := by
  refine ⟨?_, ?_, fun _ => rfl, fun _ => rfl⟩ <;>
    simp [objLists, objLoop_fst, List.enum]

/-- C3: in both objectness handlers, every negative example — including the
ones coming from the secondary assignment's sub-threshold pairs — reads the
objectness value through the *primary* assignment's index tuples at the pair's
position; the secondary tuples are never used for negatives. -/
theorem objectness_negative_indexing (sig : ℚ → ℚ) (o : LayerOutputs)
    (targets : List Target) (indices second_indices : List Assign) (blend : ℚ → ℚ → ℚ) :
    (objLists blend sig o targets indices second_indices).2.2
      = ((objPairData sig o targets indices).2.enum.filterMap fun p =>
          if p.2 > 0.6 then none
          else some (objAt o ((get_src_permutation_idx indices).1.getD p.1 0)
            ((get_src_permutation_idx indices).2.getD p.1 0)))
        ++ ((objPairData sig o targets second_indices).2.enum.filterMap fun p =>
          if p.2 > 0.6 then none
          else some (objAt o ((get_src_permutation_idx indices).1.getD p.1 0)
            ((get_src_permutation_idx indices).2.getD p.1 0))) := by
  simp [objLists, objLoop_neg, List.enum]

end SetCriterion

namespace SetCriterion

theorem withPlaceholder_isEmpty (o : LayerOutputs) (l : List ℚ) :
    (withPlaceholder o l).isEmpty = false := by
  rw [withPlaceholder]
  cases l <;> simp

theorem objLoop_length_fst_pos (blend : ℚ → ℚ → ℚ) (o : LayerOutputs)
    (posIdx negIdx : List ℕ × List ℕ) (sums : List ℚ) (k : ℕ) (gs : List ℚ) :
    (objLoop blend o posIdx negIdx sums k gs).1.length
      = (objLoop blend o posIdx negIdx sums k gs).2.1.length := by
  induction gs generalizing k with
  | nil => rfl
  | cons g rest ih =>
    rw [objLoop]
    by_cases hg : g > 0.6 <;> simp [hg, ih (k + 1)]

theorem objLists_iou_nil_of_pos_nil (blend : ℚ → ℚ → ℚ) (sig : ℚ → ℚ)
    (o : LayerOutputs) (targets : List Target) (indices second_indices : List Assign)
    (h : (objLists blend sig o targets indices second_indices).2.1 = []) :
    (objLists blend sig o targets indices second_indices).1 = [] := by
  have hlen : (objLists blend sig o targets indices second_indices).1.length
      = (objLists blend sig o targets indices second_indices).2.1.length := by
    simp [objLists, objLoop_length_fst_pos]
  rw [← List.length_eq_zero] at h ⊢
  rw [hlen, h]

/-- C10: the re-check of `len(obj_list) == 0` after the placeholder insertion
can never fire, so both objectness handlers always return the scalar
`obj_loss.sum()/num_boxes + neg_loss.sum()/num_boxes`, never the raw
placeholder tensor. -/
theorem objectness_tensor_branch_unreachable (sig : ℚ → ℚ) (o : LayerOutputs)
    (targets : List Target) (indices second_indices : List Assign) (num_boxes : ℚ) :
    (loss_obj sig o targets indices second_indices num_boxes
      = [("loss_object", LossVal.scalar
          ((l1None
              (withPlaceholder o
                (objLists (fun g s => g * 0.6 + 0.4 * s) sig o targets indices
                  second_indices).2.1)
              (objLists (fun g s => g * 0.6 + 0.4 * s) sig o targets indices
                second_indices).1).sum / num_boxes
            + (l1None
                (withPlaceholder o
                  (objLists (fun g s => g * 0.6 + 0.4 * s) sig o targets indices
                    second_indices).2.2)
                ((withPlaceholder o
                  (objLists (fun g s => g * 0.6 + 0.4 * s) sig o targets indices
                    second_indices).2.2).map fun _ => 0.5)).sum / num_boxes))])
  ∧ (loss_eobj sig o targets indices second_indices num_boxes
      = [("loss_eobject", LossVal.scalar
          ((l1None
              (withPlaceholder o
                (objLists (fun _ s => s) sig o targets indices second_indices).2.1)
              (objLists (fun _ s => s) sig o targets indices second_indices).1).sum
              / num_boxes
            + (l1None
                (withPlaceholder o
                  (objLists (fun _ s => s) sig o targets indices second_indices).2.2)
                ((withPlaceholder o
                  (objLists (fun _ s => s) sig o targets indices
                    second_indices).2.2).map fun _ => 0.5)).sum / num_boxes))]) := by
  constructor <;>
    simp [loss_obj, loss_eobj, objLossTail, withPlaceholder_isEmpty]

/-- C4 (amended): when the positive list is empty the placeholder broadcasts
against the empty target tensor and vanishes, so the loss is exactly the
negative-branch term; but when the negative list is empty the placeholder is
compared against the constant target 0.5, so the loss is the positive-branch
term *plus* `0.5 / num_boxes` — not the non-empty branch alone.  In both
cases a defined scalar is returned. -/
theorem loss_obj_degenerate (sig : ℚ → ℚ) (o : LayerOutputs) (targets : List Target)
    (indices second_indices : List Assign) (num_boxes : ℚ) :
    ((objLists (fun g s => g * 0.6 + 0.4 * s) sig o targets indices
        second_indices).2.1 = [] →
      loss_obj sig o targets indices second_indices num_boxes
        = [("loss_object", LossVal.scalar
            ((l1None
                (withPlaceholder o
                  (objLists (fun g s => g * 0.6 + 0.4 * s) sig o targets indices
                    second_indices).2.2)
                ((withPlaceholder o
                  (objLists (fun g s => g * 0.6 + 0.4 * s) sig o targets indices
                    second_indices).2.2).map fun _ => 0.5)).sum / num_boxes))])
  ∧ ((objLists (fun g s => g * 0.6 + 0.4 * s) sig o targets indices
        second_indices).2.2 = [] →
      loss_obj sig o targets indices second_indices num_boxes
        = [("loss_object", LossVal.scalar
            ((l1None
                (withPlaceholder o
                  (objLists (fun g s => g * 0.6 + 0.4 * s) sig o targets indices
                    second_indices).2.1)
                (objLists (fun g s => g * 0.6 + 0.4 * s) sig o targets indices
                  second_indices).1).sum / num_boxes
              + (1 / 2) / num_boxes))]) := by
  constructor
  · intro hpos
    have hiou := objLists_iou_nil_of_pos_nil _ sig o targets indices second_indices hpos
    rw [loss_obj, objLossTail]
    simp only [hpos, hiou, withPlaceholder_isEmpty, Bool.false_eq_true, if_false,
      reduceIte, withPlaceholder, List.isEmpty_nil, List.nil_append]
    have h1 : (l1None [objAt o 0 0 - objAt o 0 0] []).sum = 0 := by
      simp [l1None]
    rw [h1]
    norm_num
  · intro hneg
    rw [loss_obj, objLossTail]
    simp only [hneg, withPlaceholder_isEmpty, Bool.false_eq_true, if_false, reduceIte]
    have h2 : withPlaceholder o [] = [objAt o 0 0 - objAt o 0 0] := by
      simp [withPlaceholder]
    rw [h2]
    have h3 : (l1None [objAt o 0 0 - objAt o 0 0]
        ([objAt o 0 0 - objAt o 0 0].map fun _ => 0.5)).sum = 1 / 2 := by
      simp [l1None]
      norm_num
    rw [h3]

/-- One image, one query whose predicted box coincides with the single ground
truth box (GIoU = 1): both the primary and the secondary pair are positive, so
the negative list is empty. -/
def demoObjNear : LayerOutputs := ⟨[[[0]]], [[⟨1/2, 1/2, 1/2, 1/2⟩]], [[3/5]]⟩

/-- The matching single-box target for `demoObjNear`. -/
def demoTargetsNear : List Target := [⟨[0], [⟨1/2, 1/2, 1/2, 1/2⟩]⟩]

/-- The assignment matching query 0 to target 0 of image 0. -/
def demoAssign : List Assign := [([0], [0])]

theorem demoObjNear_pairData :
    objPairData (fun _ => 0) demoObjNear demoTargetsNear demoAssign = ([0], [1]) := by
  norm_num [objPairData, get_src_permutation_idx, gatherIdx, targetBoxesOf, top20Sum,
    pairGious, generalized_box_iou, box_cxcywh_to_xyxy, iouQ, interArea, unionArea,
    boxArea, demoObjNear, demoTargetsNear, demoAssign, List.enum]

theorem demoObjNear_objLists :
    objLists (fun g s => g * 0.6 + 0.4 * s) (fun _ => 0) demoObjNear demoTargetsNear
      demoAssign demoAssign = ([3/5, 3/5], [3/5, 3/5], []) := by
  simp only [objLists, demoObjNear_pairData]
  norm_num [objLoop, objAt, demoObjNear, demoAssign, get_src_permutation_idx,
    List.enum]

/-- C4 counterexample: with an empty negative list, `loss_obj` returns
`1/2` (= positive branch `0` plus the placeholder-vs-0.5 term `0.5/num_boxes`)
— not the value of the non-empty positive branch alone, which is `0`. -/
theorem loss_obj_degenerate_counterexample :
    (loss_obj (fun _ => 0) demoObjNear demoTargetsNear demoAssign demoAssign 1
      = [("loss_object", LossVal.scalar (1 / 2))])
  ∧ (objLists (fun g s => g * 0.6 + 0.4 * s) (fun _ => 0) demoObjNear demoTargetsNear
      demoAssign demoAssign).2.2 = []
  ∧ ((l1None
      (withPlaceholder demoObjNear
        (objLists (fun g s => g * 0.6 + 0.4 * s) (fun _ => 0) demoObjNear
          demoTargetsNear demoAssign demoAssign).2.1)
      (objLists (fun g s => g * 0.6 + 0.4 * s) (fun _ => 0) demoObjNear
        demoTargetsNear demoAssign demoAssign).1).sum / 1 = 0)
  ∧ ((1 : ℚ) / 2 ≠ 0) := by
  refine ⟨?_, ?_, ?_, by norm_num⟩
  · simp only [loss_obj, demoObjNear_objLists]
    norm_num [objLossTail, withPlaceholder, l1None, objAt, demoObjNear]
  · rw [demoObjNear_objLists]
  · rw [demoObjNear_objLists]
    norm_num [withPlaceholder, l1None]

/-- One image, one query whose predicted box is disjoint from the ground
truth (GIoU = -41/49 ≤ 0.6): both pairs are negative, the positive list is
empty. -/
def demoObjFar : LayerOutputs := ⟨[[[0]]], [[⟨1/8, 1/8, 1/4, 1/4⟩]], [[0]]⟩

/-- The distant single-box target for `demoObjFar`. -/
def demoTargetsFar : List Target := [⟨[0], [⟨3/4, 3/4, 1/4, 1/4⟩]⟩]

theorem demoObjFar_pairData :
    objPairData (fun _ => 0) demoObjFar demoTargetsFar demoAssign = ([0], [-41/49]) := by
  norm_num [objPairData, get_src_permutation_idx, gatherIdx, targetBoxesOf, top20Sum,
    pairGious, generalized_box_iou, box_cxcywh_to_xyxy, iouQ, interArea, unionArea,
    boxArea, demoObjFar, demoTargetsFar, demoAssign, List.enum]

theorem demoObjFar_objLists :
    objLists (fun g s => g * 0.6 + 0.4 * s) (fun _ => 0) demoObjFar demoTargetsFar
      demoAssign demoAssign = ([], [], [0, 0]) := by
  simp only [objLists, demoObjFar_pairData]
  norm_num [objLoop, objAt, demoObjFar, demoAssign, get_src_permutation_idx,
    List.enum]

/-- Witness for the amended C4 at a batch with no pair above the GIoU
threshold. -/
theorem loss_obj_degenerate_witness :
    loss_obj (fun _ => 0) demoObjFar demoTargetsFar demoAssign demoAssign 1
      = [("loss_object", LossVal.scalar
          ((l1None
              (withPlaceholder demoObjFar
                (objLists (fun g s => g * 0.6 + 0.4 * s) (fun _ => 0) demoObjFar
                  demoTargetsFar demoAssign demoAssign).2.2)
              ((withPlaceholder demoObjFar
                (objLists (fun g s => g * 0.6 + 0.4 * s) (fun _ => 0) demoObjFar
                  demoTargetsFar demoAssign demoAssign).2.2).map fun _ => 0.5)).sum
            / 1))] :=
  (loss_obj_degenerate (fun _ => 0) demoObjFar demoTargetsFar demoAssign demoAssign 1).1
    (by rw [demoObjFar_objLists])

/-- The trivial instantiation of the external torch functions, for concrete
witnesses. -/
def demoExt : TorchExt :=
  ⟨fun _ => 0, fun _ _ _ => 0, fun _ _ => 0, fun _ _ _ _ _ => []⟩

/-- A matcher that pairs query 0 with target 0 of every image, for both the
primary and the secondary assignment. -/
def demoMatcher : Matcher := fun _ _ => ([([0], [0])], [([0], [0])])

/-- C5: `num_boxes` is the batch total of ground-truth labels, collectively
summed, divided by the world size and clamped below at 1 — for per-image
counts `[3,0,5]` on a single worker it is 8 — and `forward` hands exactly
this value to every loss handler of the step as the shared normalization
denominator. -/
theorem num_boxes_normalization (E : TorchExt) (num_classes : ℕ) (matcher : Matcher)
    (losses : List LossKind) (outputs : ModelOutputs) (targets : List Target)
    (h : targets.map (fun t => t.labels.length) = [3, 0, 5]) :
    computeNumBoxes singleWorker targets = 8
  ∧ (∀ env : DistEnv,
      forward E num_classes matcher env losses outputs targets
        = criterionLosses E num_classes matcher losses outputs targets
            (computeNumBoxes env targets))
  ∧ (∀ env : DistEnv, env.world_size = 1 → env.allReduceSum = id →
      computeNumBoxes env targets
        = max (((targets.map fun t => (t.labels.length : ℚ)).sum) / 1) 1) := by
  refine ⟨?_, fun _ => rfl, ?_⟩
  · have hsum : (targets.map fun t => (t.labels.length : ℚ)).sum = 8 := by
      calc (targets.map fun t => (t.labels.length : ℚ)).sum
          = ((targets.map fun t => t.labels.length).map fun n : ℕ => (n : ℚ)).sum := by
            rw [List.map_map]
            simp [Function.comp_def]
        _ = 8 := by rw [h]; norm_num
    rw [computeNumBoxes, hsum]
    norm_num [singleWorker]
  · intro env h1 h2
    rw [computeNumBoxes, h1, h2]
    norm_num

/-- Witness for C5: a three-image batch with 3, 0 and 5 ground-truth boxes on
a single worker. -/
theorem num_boxes_normalization_witness :
    computeNumBoxes singleWorker
      [⟨[1, 2, 3], []⟩, ⟨[], []⟩, ⟨[4, 5, 6, 7, 8], []⟩] = 8 :=
  (num_boxes_normalization demoExt 0 demoMatcher [] ⟨default, [], none⟩
    [⟨[1, 2, 3], []⟩, ⟨[], []⟩, ⟨[4, 5, 6, 7, 8], []⟩] (by simp)).1

end SetCriterion

namespace SetCriterion

theorem loss_eobj_key (sig : ℚ → ℚ) (o : LayerOutputs) (t : List Target)
    (i s : List Assign) (nb : ℚ) :
    (loss_eobj sig o t i s nb).map Prod.fst = ["loss_eobject"] := by
  simp [loss_eobj, objLossTail, withPlaceholder_isEmpty]

theorem buildLosses_enc_filter :
    buildLosses.filter (fun l => decide (l ≠ LossKind.masks ∧ l ≠ LossKind.objs))
      = [LossKind.labels, LossKind.boxes, LossKind.cardinality, LossKind.eobjs] := rfl

/-- C1 counterexample: with the standard five-loss configuration and an
encoder-proposal output present, the loss dictionary contains the key
`loss_eobject_enc` — the `eobjs` objectness loss is *not* skipped for the
encoder layer (only `masks` and `objs` are). -/
theorem enc_branch_counterexample :
    "loss_eobject_enc" ∈ (forward demoExt 1 demoMatcher singleWorker buildLosses
      ⟨demoObjNear, [], some demoObjNear⟩ demoTargetsNear).map Prod.fst := by
  rw [forward]
  simp only [criterionLosses, buildLosses_enc_filter]
  simp only [List.flatMap_cons, List.flatMap_nil, List.map_append, List.mem_append,
    List.append_nil, get_loss]
  refine Or.inr (Or.inr (Or.inr (Or.inr ?_)))
  have hk := loss_eobj_key demoExt.sig demoObjNear (binTargets demoTargetsNear)
    (demoMatcher demoObjNear (binTargets demoTargetsNear)).1
    (demoMatcher demoObjNear (binTargets demoTargetsNear)).2
    (computeNumBoxes singleWorker demoTargetsNear)
  rw [List.map_map, show (Prod.fst ∘ fun kv : String × LossVal =>
    (kv.1 ++ "_enc", kv.2)) = fun kv => kv.1 ++ "_enc" from rfl]
  rw [show (fun kv : String × LossVal => kv.1 ++ "_enc")
    = (fun k => k ++ "_enc") ∘ Prod.fst from rfl, ← List.map_map, hk]
  simp

end SetCriterion

namespace SetCriterion

theorem binTargets_labels_zero (targets : List Target) :
    ∀ t ∈ binTargets targets, ∀ l ∈ t.labels, l = 0 := by
  intro t ht l hl
  rw [binTargets] at ht
  obtain ⟨t0, -, rfl⟩ := List.mem_map.mp ht
  obtain ⟨-, -, h⟩ := List.mem_map.mp hl
  exact h.symm

/-- C1 (amended): when `enc_outputs` is present, `forward` rebuilds binary
targets with every label rewritten to class 0, recomputes the assignment on
them, and computes the `labels`, `boxes`, `cardinality` *and* `eobjs` losses
for the encoder layer — only the `objs` objectness loss and the masks loss are
skipped — every key suffixed `_enc`. -/
theorem enc_branch_losses (E : TorchExt) (num_classes : ℕ) (matcher : Matcher)
    (env : DistEnv) (outputs : ModelOutputs) (targets : List Target)
    (enc : LayerOutputs) (h : outputs.enc_outputs = some enc) :
    (forward E num_classes matcher env buildLosses outputs targets
      = forward E num_classes matcher env buildLosses
          ⟨outputs.main, outputs.aux_outputs, none⟩ targets
        ++ ((loss_labels E num_classes enc (binTargets targets)
              (matcher enc (binTargets targets)).1 (computeNumBoxes env targets) false
            ++ loss_boxes enc (binTargets targets)
              (matcher enc (binTargets targets)).1 (computeNumBoxes env targets)
            ++ loss_cardinality enc (binTargets targets)
            ++ loss_eobj E.sig enc (binTargets targets)
              (matcher enc (binTargets targets)).1 (matcher enc (binTargets targets)).2
              (computeNumBoxes env targets)).map fun kv => (kv.1 ++ "_enc", kv.2)))
  ∧ (∀ t ∈ binTargets targets, ∀ l ∈ t.labels, l = 0) := by
  refine ⟨?_, binTargets_labels_zero targets⟩
  rw [forward, forward]
  simp only [criterionLosses, h, buildLosses_enc_filter]
  simp only [List.flatMap_cons, List.flatMap_nil, List.append_nil, get_loss,
    List.map_append, List.append_assoc]

end SetCriterion

namespace SetCriterion

/-- Witness for the amended C1 at a concrete one-image, one-query input with
an encoder-proposal output. -/
theorem enc_branch_losses_witness :
    (forward demoExt 1 demoMatcher singleWorker buildLosses
        ⟨demoObjNear, [], some demoObjNear⟩ demoTargetsNear
      = forward demoExt 1 demoMatcher singleWorker buildLosses
          ⟨demoObjNear, [], none⟩ demoTargetsNear
        ++ ((loss_labels demoExt 1 demoObjNear (binTargets demoTargetsNear)
              (demoMatcher demoObjNear (binTargets demoTargetsNear)).1
              (computeNumBoxes singleWorker demoTargetsNear) false
            ++ loss_boxes demoObjNear (binTargets demoTargetsNear)
              (demoMatcher demoObjNear (binTargets demoTargetsNear)).1
              (computeNumBoxes singleWorker demoTargetsNear)
            ++ loss_cardinality demoObjNear (binTargets demoTargetsNear)
            ++ loss_eobj demoExt.sig demoObjNear (binTargets demoTargetsNear)
              (demoMatcher demoObjNear (binTargets demoTargetsNear)).1
              (demoMatcher demoObjNear (binTargets demoTargetsNear)).2
              (computeNumBoxes singleWorker demoTargetsNear)).map
              fun kv => (kv.1 ++ "_enc", kv.2)))
  ∧ (∀ t ∈ binTargets demoTargetsNear, ∀ l ∈ t.labels, l = 0) :=
  enc_branch_losses demoExt 1 demoMatcher singleWorker
    ⟨demoObjNear, [], some demoObjNear⟩ demoTargetsNear demoObjNear rfl

end SetCriterion

/-! ## Sorting and NMS facts -/

theorem mem_insertDescBy {α : Type} (f : α → ℚ) (a x : α) (l : List α) :
    x ∈ insertDescBy f a l ↔ x = a ∨ x ∈ l := by
  induction l with
  | nil => simp [insertDescBy]
  | cons b bs ih =>
    rw [insertDescBy]
    by_cases hb : f b ≤ f a
    · simp [hb, List.mem_cons]
    · simp only [hb, if_false, reduceIte, List.mem_cons, ih]
      tauto

theorem sorted_insertDescBy {α : Type} (f : α → ℚ) (a : α) (l : List α)
    (h : List.Pairwise (fun x y => f y ≤ f x) l) :
    List.Pairwise (fun x y => f y ≤ f x) (insertDescBy f a l) := by
  induction l with
  | nil => simp [insertDescBy]
  | cons b bs ih =>
    rw [insertDescBy]
    rcases List.pairwise_cons.mp h with ⟨hb, hbs⟩
    by_cases hba : f b ≤ f a
    · simp only [hba, if_true, reduceIte]
      refine List.pairwise_cons.mpr ⟨?_, h⟩
      intro x hx
      rcases List.mem_cons.mp hx with rfl | hx'
      · exact hba
      · exact le_trans (hb x hx') hba
    · simp only [hba, if_false, reduceIte]
      refine List.pairwise_cons.mpr ⟨?_, ih hbs⟩
      intro x hx
      rcases (mem_insertDescBy f a x bs).mp hx with rfl | hx'
      · exact le_of_not_le hba
      · exact hb x hx'

theorem sorted_sortDescBy {α : Type} (f : α → ℚ) (l : List α) :
    List.Pairwise (fun x y => f y ≤ f x) (sortDescBy f l) := by
  induction l with
  | nil => simp [sortDescBy]
  | cons a as ih => exact sorted_insertDescBy f a _ ih

theorem length_sortDescBy {α : Type} (f : α → ℚ) (l : List α) :
    (sortDescBy f l).length = l.length := by
  induction l with
  | nil => rfl
  | cons a as ih =>
    rw [sortDescBy]
    have : ∀ (b : α) (m : List α), (insertDescBy f b m).length = m.length + 1 := by
      intro b m
      induction m with
      | nil => rfl
      | cons c cs ihm =>
        rw [insertDescBy]
        by_cases hc : f c ≤ f b <;> simp [hc, ihm]
    rw [this, ih]
    rfl

theorem mem_sortDescBy {α : Type} (f : α → ℚ) (x : α) (l : List α) :
    x ∈ sortDescBy f l ↔ x ∈ l := by
  induction l with
  | nil => simp [sortDescBy]
  | cons a as ih =>
    rw [sortDescBy, mem_insertDescBy, ih, List.mem_cons]

theorem detRel_symm {thr : ℚ} {a b : Det}
    (h : a.label = b.label → iouQ a.box b.box ≤ thr) :
    b.label = a.label → iouQ b.box a.box ≤ thr := by
  intro hl
  rw [iouQ_comm]
  exact h hl.symm

theorem nmsGreedy_pairwise (thr : ℚ) (l : List Det) :
    ∀ kept : List Det,
      List.Pairwise (fun a b => a.label = b.label → iouQ a.box b.box ≤ thr) kept →
      List.Pairwise (fun a b => a.label = b.label → iouQ a.box b.box ≤ thr)
        (nmsGreedy thr kept l) := by
  induction l with
  | nil =>
    intro kept h
    rw [nmsGreedy]
    exact List.pairwise_reverse.mpr (h.imp detRel_symm)
  | cons c rest ih =>
    intro kept h
    rw [nmsGreedy]
    cases hany : kept.any fun k => decide (k.label = c.label ∧ iouQ k.box c.box > thr) with
    | true => simp only [hany, if_true, reduceIte]; exact ih kept h
    | false =>
      simp only [hany, Bool.false_eq_true, if_false, reduceIte]
      refine ih (c :: kept) (List.pairwise_cons.mpr ⟨?_, h⟩)
      intro k hk hl
      have hnot := List.any_eq_false.mp hany k hk
      simp only [decide_eq_true_eq, not_and, not_lt] at hnot
      rw [iouQ_comm]
      exact hnot hl.symm

theorem batched_nms_pairwise (thr : ℚ) (cands : List Det) :
    List.Pairwise (fun a b => a.label = b.label → iouQ a.box b.box ≤ thr)
      (batched_nms thr cands) :=
  nmsGreedy_pairwise thr _ [] List.Pairwise.nil

/-- C8: the NMS post-processor returns at most 100 detections per image, no
two kept detections of the same class overlap with IoU above 0.7, and the
pre-NMS cap keeps only candidates scoring at least as high as everything it
discards beyond position 10,000 of the score-sorted list. -/
theorem nms_postprocess_bounds (sig : ℚ → ℚ) (logits : List (List ℚ))
    (boxes : List Box4) (h w : ℚ) :
    (NMSPostProcess.forwardImage sig logits boxes h w).length ≤ 100
  ∧ List.Pairwise (fun a b => a.label = b.label → iouQ a.box b.box ≤ 0.7)
      (NMSPostProcess.forwardImage sig logits boxes h w)
  ∧ (∀ y ∈ (sortDescBy Det.score (flatCandidates sig logits boxes h w)).drop 10000,
      ∀ x ∈ (sortDescBy Det.score (flatCandidates sig logits boxes h w)).take 10000,
        y.score ≤ x.score) := by
  refine ⟨?_, ?_, ?_⟩
  · rw [NMSPostProcess.forwardImage]
    exact List.length_take_le 100 _
  · rw [NMSPostProcess.forwardImage]
    exact (batched_nms_pairwise 0.7 _).sublist (List.take_sublist 100 _)
  · intro y hy x hx
    have hs := sorted_sortDescBy Det.score (flatCandidates sig logits boxes h w)
    rw [← List.take_append_drop 10000
      (sortDescBy Det.score (flatCandidates sig logits boxes h w))] at hs
    exact (List.pairwise_append.mp hs).2.2 x hx y hy

/-- Witness for C8 at a concrete one-query, one-class image. -/
theorem nms_postprocess_bounds_witness :
    (NMSPostProcess.forwardImage (fun _ => 0) [[0]] [⟨0, 0, 1, 1⟩] 1 1).length ≤ 100
  ∧ List.Pairwise (fun a b => a.label = b.label → iouQ a.box b.box ≤ 0.7)
      (NMSPostProcess.forwardImage (fun _ => 0) [[0]] [⟨0, 0, 1, 1⟩] 1 1) :=
  ⟨(nms_postprocess_bounds (fun _ => 0) [[0]] [⟨0, 0, 1, 1⟩] 1 1).1,
   (nms_postprocess_bounds (fun _ => 0) [[0]] [⟨0, 0, 1, 1⟩] 1 1).2.1⟩

/-- C9 counterexample: on a single image with 5 queries and 3 classes (15
flattened scores), `torch.topk(..., 100)` is out of range and the Top-K
post-processor fails instead of returning detections. -/
theorem topk_postprocess_counterexample :
    PostProcess.forward (fun _ => 0)
      [[[0, 0, 0], [0, 0, 0], [0, 0, 0], [0, 0, 0], [0, 0, 0]]]
      [[⟨1/2, 1/2, 1/2, 1/2⟩, ⟨1/2, 1/2, 1/2, 1/2⟩, ⟨1/2, 1/2, 1/2, 1/2⟩,
        ⟨1/2, 1/2, 1/2, 1/2⟩, ⟨1/2, 1/2, 1/2, 1/2⟩]]
      [(100, 200)] = none := rfl

/-- C9 (amended): with at least 100 flattened scores the Top-K post-processor
returns exactly 100 detections; whenever every candidate box's corner form
lies inside the unit square and the target size is nonnegative, every
returned box lies within `[0, w] × [0, h]` in absolute pixels. -/
theorem topk_postprocess_bounds (sig : ℚ → ℚ) (logits : List (List ℚ))
    (boxes : List Box4) (h w : ℚ)
    (hn : 100 ≤ logits.length * (logits.getD 0 []).length)
    (hh : 0 ≤ h) (hw : 0 ≤ w)
    (hb : ∀ b ∈ boxes, 0 ≤ (box_cxcywh_to_xyxy b).c0 ∧ (box_cxcywh_to_xyxy b).c2 ≤ 1
        ∧ 0 ≤ (box_cxcywh_to_xyxy b).c1 ∧ (box_cxcywh_to_xyxy b).c3 ≤ 1) :
    ∃ r, PostProcess.forwardImage sig logits boxes h w = some r
      ∧ r.length = 100
      ∧ ∀ d ∈ r, 0 ≤ d.box.c0 ∧ d.box.c2 ≤ w ∧ 0 ≤ d.box.c1 ∧ d.box.c3 ≤ h := by
  have hlt : ¬(logits.length * (logits.getD 0 []).length < 100) := not_lt.mpr hn
  simp only [PostProcess.forwardImage, hlt, if_false, reduceIte]
  refine ⟨_, rfl, ?_, ?_⟩
  · rw [List.length_take, length_sortDescBy]
    have hfc : (flatCandidates sig logits boxes h w).length
        = logits.length * (logits.getD 0 []).length := by
      simp [flatCandidates]
    rw [hfc]
    omega
  · intro d hd
    have hd2 : d ∈ flatCandidates sig logits boxes h w := by
      rw [← mem_sortDescBy Det.score]
      exact List.mem_of_mem_take hd
    rw [flatCandidates] at hd2
    simp only [List.mem_map] at hd2
    obtain ⟨k, -, rfl⟩ := hd2
    have hcorner :
        0 ≤ (box_cxcywh_to_xyxy
            (boxes.getD (k / (logits.getD 0 []).length) default)).c0
      ∧ (box_cxcywh_to_xyxy
            (boxes.getD (k / (logits.getD 0 []).length) default)).c2 ≤ 1
      ∧ 0 ≤ (box_cxcywh_to_xyxy
            (boxes.getD (k / (logits.getD 0 []).length) default)).c1
      ∧ (box_cxcywh_to_xyxy
            (boxes.getD (k / (logits.getD 0 []).length) default)).c3 ≤ 1 := by
      by_cases hkb : k / (logits.getD 0 []).length < boxes.length
      · refine hb _ ?_
        rw [List.getD_eq_getElem _ _ hkb]
        exact List.getElem_mem hkb
      · rw [List.getD_eq_default _ _ (not_lt.mp hkb)]
        norm_num [box_cxcywh_to_xyxy, instInhabitedBox4, default]
    rcases hcorner with ⟨h0, h2, h1, h3⟩
    refine ⟨?_, ?_, ?_, ?_⟩ <;> simp only [scaleBox]
    · exact mul_nonneg h0 hw
    · calc (box_cxcywh_to_xyxy
            (boxes.getD (k / (logits.getD 0 []).length) default)).c2 * w
          ≤ 1 * w := mul_le_mul_of_nonneg_right h2 hw
        _ = w := one_mul w
    · exact mul_nonneg h1 hh
    · calc (box_cxcywh_to_xyxy
            (boxes.getD (k / (logits.getD 0 []).length) default)).c3 * h
          ≤ 1 * h := mul_le_mul_of_nonneg_right h3 hh
        _ = h := one_mul h

/-- Witness for the amended C9: 100 queries, one class, target size
(100, 200). -/
theorem topk_postprocess_bounds_witness :
    ∃ r, PostProcess.forwardImage (fun _ => 0) (List.replicate 100 [0]) [] 100 200
        = some r
      ∧ r.length = 100
      ∧ ∀ d ∈ r, 0 ≤ d.box.c0 ∧ d.box.c2 ≤ 200 ∧ 0 ≤ d.box.c1 ∧ d.box.c3 ≤ 100 :=
  topk_postprocess_bounds (fun _ => 0) (List.replicate 100 [0]) [] 100 200
    (by simp) (by norm_num) (by norm_num) (by simp)

/-! ## The one-hot target structure of `loss_labels` (claim C6) -/

namespace SetCriterion

/-- The class id of the first target matched to query `q` in one image's
assignment lists (`qs` query indices, `js` target indices), if any. -/
def firstMatch (labels : List ℕ) (qs js : List ℕ) (q : ℕ) : Option ℕ :=
  match qs, js with
  | [], _ => none
  | _ :: _, [] => none
  | a :: qs', j :: js' =>
    if a = q then some (labels.getD j 0) else firstMatch labels qs' js' q

/-- The class id assigned to query `q` of image `b`, if `b`'s assignment
matches that query. -/
def matchedClassAt (targets : List Target) (indices : List Assign) (b q : ℕ) :
    Option ℕ :=
  firstMatch (targets.getD b default).labels (indices.getD b ([], [])).1
    (indices.getD b ([], [])).2 q

/-- `get_src_permutation_idx` with the batch enumeration starting at `k`. -/
def spiFrom (k : ℕ) (indices : List Assign) : List ℕ × List ℕ :=
  (List.flatten ((List.enumFrom k indices).map fun p => p.2.1.map fun _ => p.1),
   List.flatten (indices.map fun p => p.1))

/-- The element-write list denoted by
`target_classes[idx] = target_classes_o`, batch enumeration starting at `k`. -/
def updatesFrom (k : ℕ) (targets : List Target) (indices : List Assign) :
    List ((ℕ × ℕ) × ℕ) :=
  ((spiFrom k indices).1.zip (spiFrom k indices).2).zip (targetClassesO targets indices)

theorem get_src_permutation_idx_eq_spiFrom (indices : List Assign) :
    get_src_permutation_idx indices = spiFrom 0 indices := rfl

theorem setAt_getD_row_ne (m : List (List ℕ)) (i b q v : ℕ) (h : b ≠ i) :
    (setAt m i q v).getD b [] = m.getD b [] := by
  rw [setAt, List.getD_eq_getElem?_getD, List.getElem?_set, if_neg (fun he => h he.symm),
    ← List.getD_eq_getElem?_getD]

theorem setAt_getD_row_self (m : List (List ℕ)) (i q v : ℕ) (h : i < m.length) :
    (setAt m i q v).getD i [] = (m.getD i []).set q v := by
  rw [setAt, List.getD_eq_getElem?_getD, List.getElem?_set, if_pos rfl, if_pos h]
  rfl

theorem set_getD_col_ne (row : List ℕ) (p q v d : ℕ) (h : p ≠ q) :
    (row.set p v).getD q d = row.getD q d := by
  rw [List.getD_eq_getElem?_getD, List.getElem?_set, if_neg h,
    ← List.getD_eq_getElem?_getD]

theorem set_getD_col_self (row : List ℕ) (q v d : ℕ) (h : q < row.length) :
    (row.set q v).getD q d = v := by
  rw [List.getD_eq_getElem?_getD, List.getElem?_set, if_pos rfl, if_pos h]
  rfl

theorem setAt_getD_col_ne (m : List (List ℕ)) (i b p q v d : ℕ) (h : p ≠ q) :
    ((setAt m i p v).getD b []).getD q d = (m.getD b []).getD q d := by
  by_cases hb : b = i
  · subst hb
    by_cases hi : b < m.length
    · rw [setAt_getD_row_self m b p v hi, set_getD_col_ne _ _ _ _ _ h]
    · rw [setAt, List.set_eq_of_length_le (not_lt.mp hi)]
  · rw [setAt_getD_row_ne m i b p v hb]

theorem setAt_length (m : List (List ℕ)) (i q v : ℕ) :
    (setAt m i q v).length = m.length := List.length_set m i _

theorem setAt_row_length (m : List (List ℕ)) (i b q v : ℕ) :
    ((setAt m i q v).getD b []).length = (m.getD b []).length := by
  by_cases hb : b = i
  · subst hb
    by_cases hi : b < m.length
    · rw [setAt_getD_row_self m b q v hi, List.length_set]
    · rw [setAt, List.set_eq_of_length_le (not_lt.mp hi)]
  · rw [setAt_getD_row_ne m i b q v hb]

theorem applyUpdates_nil (m : List (List ℕ)) : applyUpdates m [] = m := rfl

theorem applyUpdates_cons (m : List (List ℕ)) (u : (ℕ × ℕ) × ℕ)
    (rest : List ((ℕ × ℕ) × ℕ)) :
    applyUpdates m (u :: rest) = applyUpdates (setAt m u.1.1 u.1.2 u.2) rest := rfl

theorem applyUpdates_append (m : List (List ℕ)) (u1 u2 : List ((ℕ × ℕ) × ℕ)) :
    applyUpdates m (u1 ++ u2) = applyUpdates (applyUpdates m u1) u2 :=
  List.foldl_append _ _ u1 u2

theorem applyUpdates_length (m : List (List ℕ)) (ups : List ((ℕ × ℕ) × ℕ)) :
    (applyUpdates m ups).length = m.length := by
  induction ups generalizing m with
  | nil => rfl
  | cons u rest ih => rw [applyUpdates_cons, ih, setAt_length]

theorem applyUpdates_row_length (m : List (List ℕ)) (ups : List ((ℕ × ℕ) × ℕ)) (b : ℕ) :
    ((applyUpdates m ups).getD b []).length = (m.getD b []).length := by
  induction ups generalizing m with
  | nil => rfl
  | cons u rest ih =>
    rw [applyUpdates_cons, ih, setAt_row_length]

theorem applyUpdates_row_ne (m : List (List ℕ)) (ups : List ((ℕ × ℕ) × ℕ)) (b : ℕ)
    (h : ∀ u ∈ ups, u.1.1 ≠ b) :
    (applyUpdates m ups).getD b [] = m.getD b [] := by
  induction ups generalizing m with
  | nil => rfl
  | cons u rest ih =>
    rw [applyUpdates_cons, ih _ fun v hv => h v (List.mem_cons_of_mem u hv),
      setAt_getD_row_ne _ _ _ _ _ fun he =>
        h u (List.mem_cons_self u rest) he.symm]

theorem applyUpdates_col_ne (m : List (List ℕ)) (ups : List ((ℕ × ℕ) × ℕ)) (b q d : ℕ)
    (h : ∀ u ∈ ups, u.1.2 ≠ q) :
    ((applyUpdates m ups).getD b []).getD q d = (m.getD b []).getD q d := by
  induction ups generalizing m with
  | nil => rfl
  | cons u rest ih =>
    rw [applyUpdates_cons, ih _ fun v hv => h v (List.mem_cons_of_mem u hv),
      setAt_getD_col_ne _ _ _ _ _ _ _ (h u (List.mem_cons_self u rest))]

end SetCriterion

namespace SetCriterion

theorem col_mem_of_mem_chunk (k : ℕ) (lab : ℕ → ℕ) :
    ∀ (qs js : List ℕ) (u : (ℕ × ℕ) × ℕ),
      u ∈ List.zipWith (fun a j => ((k, a), lab j)) qs js → u.1.2 ∈ qs := by
  intro qs
  induction qs with
  | nil => intro js u hu; cases hu
  | cons a qs' ih =>
    intro js u hu
    cases js with
    | nil => cases hu
    | cons j js' =>
      rw [List.zipWith_cons_cons] at hu
      rcases List.mem_cons.mp hu with rfl | hmem
      · exact List.mem_cons_self a qs'
      · exact List.mem_cons_of_mem a (ih js' u hmem)

/-- Looking up position `(k, q)` after applying one image's writes: the value
is the first matching write, and the old entry if the image does not match
query `q`. -/
theorem chunk_lookup (k : ℕ) (labels : List ℕ) :
    ∀ (qs js : List ℕ) (m : List (List ℕ)) (q d : ℕ),
      qs.Nodup → k < m.length → q < (m.getD k []).length →
      ((applyUpdates m
          (List.zipWith (fun a j => ((k, a), labels.getD j 0)) qs js)).getD k []).getD q d
        = (firstMatch labels qs js q).getD ((m.getD k []).getD q d) := by
  intro qs
  induction qs with
  | nil => intro js m q d _ _ _; rfl
  | cons a qs' ih =>
    intro js m q d hnd hk hq
    cases js with
    | nil => rfl
    | cons j js' =>
      rw [List.zipWith_cons_cons, applyUpdates_cons, firstMatch]
      rcases List.pairwise_cons.mp hnd with ⟨hna, hnd'⟩
      by_cases haq : a = q
      · subst haq
        rw [if_pos rfl]
        rw [applyUpdates_col_ne _ _ _ _ _ fun u hu he =>
          hna a (by rw [← he]; exact col_mem_of_mem_chunk k _ qs' js' u hu) rfl]
        rw [setAt_getD_row_self m k a (labels.getD j 0) hk,
          set_getD_col_self _ _ _ _ hq]
        rfl
      · rw [if_neg haq]
        rw [ih js' (setAt m k a (labels.getD j 0)) q d hnd'
          (by rw [setAt_length]; exact hk)
          (by rw [setAt_row_length]; exact hq)]
        rw [setAt_getD_row_self m k a (labels.getD j 0) hk,
          set_getD_col_ne _ _ _ _ _ haq]

theorem targetClassesO_cons (t : Target) (ts : List Target) (p : Assign)
    (rest : List Assign) :
    targetClassesO (t :: ts) (p :: rest)
      = p.2.map (fun j => t.labels.getD j 0) ++ targetClassesO ts rest := by
  rw [targetClassesO, targetClassesO, List.zip_cons_cons, List.map_cons,
    List.flatten_cons]

theorem chunk_zip_eq (k : ℕ) (lab : ℕ → ℕ) :
    ∀ (qs js : List ℕ),
      ((qs.map fun _ => k).zip qs).zip (js.map lab)
        = List.zipWith (fun a j => ((k, a), lab j)) qs js := by
  intro qs
  induction qs with
  | nil => intro js; rfl
  | cons a qs' ih =>
    intro js
    cases js with
    | nil => rfl
    | cons j js' =>
      rw [List.map_cons, List.map_cons, List.zip_cons_cons, List.zip_cons_cons,
        List.zipWith_cons_cons, ih js']

theorem updatesFrom_cons (k : ℕ) (t : Target) (ts : List Target) (p : Assign)
    (rest : List Assign) (hlen : p.1.length = p.2.length) :
    updatesFrom k (t :: ts) (p :: rest)
      = List.zipWith (fun a j => ((k, a), t.labels.getD j 0)) p.1 p.2
        ++ updatesFrom (k + 1) ts rest := by
  rw [updatesFrom, updatesFrom, spiFrom, spiFrom, List.enumFrom_cons,
    List.map_cons, List.flatten_cons, List.map_cons, List.flatten_cons,
    targetClassesO_cons]
  rw [List.zip_append (by rw [List.length_map])]
  rw [List.zip_append (by
    rw [List.length_zip, List.length_map, List.length_map, min_self, hlen])]
  rw [chunk_zip_eq]

end SetCriterion

namespace SetCriterion

theorem row_eq_of_mem_chunk (k : ℕ) (lab : ℕ → ℕ) :
    ∀ (qs js : List ℕ) (u : (ℕ × ℕ) × ℕ),
      u ∈ List.zipWith (fun a j => ((k, a), lab j)) qs js → u.1.1 = k := by
  intro qs
  induction qs with
  | nil => intro js u hu; cases hu
  | cons a qs' ih =>
    intro js u hu
    cases js with
    | nil => cases hu
    | cons j js' =>
      rw [List.zipWith_cons_cons] at hu
      rcases List.mem_cons.mp hu with rfl | hmem
      · rfl
      · exact ih js' u hmem

theorem coord_ge_of_mem_updatesFrom (k : ℕ) (ts : List Target) (inds : List Assign)
    (u : (ℕ × ℕ) × ℕ) (hu : u ∈ updatesFrom k ts inds) : k ≤ u.1.1 := by
  rcases u with ⟨⟨i, q'⟩, v⟩
  rw [updatesFrom] at hu
  have h1 := (List.of_mem_zip hu).1
  have h2 := (List.of_mem_zip h1).1
  rw [spiFrom] at h2
  simp only [List.mem_flatten, List.mem_map] at h2
  obtain ⟨l, ⟨⟨i', pa⟩, hpa, rfl⟩, hil⟩ := h2
  simp only [List.mem_map] at hil
  obtain ⟨-, -, rfl⟩ := hil
  exact (List.mem_enumFrom hpa).1

/-- Looking up entry `(b, q)` of the class tensor after all images' writes:
the first match of image `b`'s assignment for query `q`, falling back to the
original entry. -/
theorem lookup_updatesFrom :
    ∀ (inds : List Assign) (ts : List Target) (k : ℕ) (m : List (List ℕ)) (b q d : ℕ),
      (∀ p ∈ inds, p.1.length = p.2.length ∧ p.1.Nodup) →
      ts.length = inds.length →
      k + inds.length ≤ m.length →
      k ≤ b →
      q < (m.getD b []).length →
      ((applyUpdates m (updatesFrom k ts inds)).getD b []).getD q d
        = (matchedClassAt ts inds (b - k) q).getD ((m.getD b []).getD q d) := by
  intro inds
  induction inds with
  | nil =>
    intro ts k m b q d _ _ _ _ _
    rfl
  | cons p rest ih =>
    intro ts k m b q d hval hlen hm hkb hq
    cases ts with
    | nil => exact absurd hlen (by simp)
    | cons t ts' =>
      have hp := hval p (List.mem_cons_self p rest)
      rw [updatesFrom_cons k t ts' p rest hp.1, applyUpdates_append]
      by_cases hb : b = k
      · subst hb
        rw [applyUpdates_row_ne _ _ _ fun u hu he => by
          have := coord_ge_of_mem_updatesFrom (b + 1) ts' rest u hu
          omega]
        rw [chunk_lookup b t.labels p.1 p.2 m q d hp.2 (by
          rw [List.length_cons] at hm; omega) hq]
        simp [matchedClassAt, Nat.sub_self, List.getD_cons_zero]
      · rw [ih ts' (k + 1)
          (applyUpdates m (List.zipWith (fun a j => ((k, a), t.labels.getD j 0)) p.1 p.2))
          b q d
          (fun p' hp' => hval p' (List.mem_cons_of_mem p hp'))
          (by simpa using hlen)
          (by rw [applyUpdates_length]; rw [List.length_cons] at hm; omega)
          (by omega)
          (by rw [applyUpdates_row_length]; exact hq)]
        rw [applyUpdates_row_ne _ _ _ fun u hu he => by
          have := row_eq_of_mem_chunk k (fun j => t.labels.getD j 0) p.1 p.2 u hu
          omega]
        have hbk : b - k = (b - (k + 1)) + 1 := by omega
        rw [hbk]
        simp [matchedClassAt, List.getD_cons_succ]

end SetCriterion

namespace SetCriterion

theorem getD_replicate_lt {α : Type} (a : α) {n i : ℕ} (d : α) (h : i < n) :
    (List.replicate n a).getD i d = a := by
  rw [List.getD_eq_getElem _ _ (by rw [List.length_replicate]; exact h)]
  exact List.getElem_replicate a _

theorem targetClasses_eq_applyUpdates (num_classes : ℕ) (o : LayerOutputs)
    (targets : List Target) (indices : List Assign) :
    targetClasses num_classes o targets indices
      = applyUpdates
          (List.replicate o.pred_logits.length
            (List.replicate (o.pred_logits.getD 0 []).length num_classes))
          (updatesFrom 0 targets indices) := rfl

/-- C6: `loss_labels` one-hot encodes the per-query class tensor — a matched
query's row is the indicator of its assigned target's class, an unmatched
query's row is all-zero (the overflow column written at index `num_classes` is
dropped) — and the returned `loss_ce` is the focal loss of the logits against
these targets multiplied by the number of queries, not averaged. -/
theorem loss_labels_onehot_structure (E : TorchExt) (num_classes : ℕ)
    (o : LayerOutputs) (targets : List Target) (indices : List Assign)
    (num_boxes : ℚ) (hTI : targets.length = indices.length)
    (hIB : indices.length ≤ o.pred_logits.length)
    (hval : ∀ p ∈ indices, p.1.length = p.2.length ∧ p.1.Nodup) :
    (loss_labels E num_classes o targets indices num_boxes false
      = [("loss_ce", LossVal.scalar
          (E.sfl o.pred_logits
            ((targetClasses num_classes o targets indices).map
              (List.map (onehotRow num_classes)))
            num_boxes * ((o.pred_logits.getD 0 []).length : ℚ)))])
  ∧ (∀ b q, b < o.pred_logits.length → q < (o.pred_logits.getD 0 []).length →
      ((targetClasses num_classes o targets indices).getD b []).getD q num_classes
        = (matchedClassAt targets indices b q).getD num_classes)
  ∧ (∀ c, c < num_classes →
      onehotRow num_classes c
        = (List.range num_classes).map fun j => if j = c then (1 : ℚ) else 0)
  ∧ onehotRow num_classes num_classes = List.replicate num_classes 0 := by
  refine ⟨?_, ?_, ?_, ?_⟩
  · simp [loss_labels]
  · intro b q hb hq
    rw [targetClasses_eq_applyUpdates]
    rw [lookup_updatesFrom indices targets 0 _ b q num_classes hval hTI
      (by rw [List.length_replicate]; omega) (Nat.zero_le b)
      (by rw [getD_replicate_lt _ _ hb, List.length_replicate]; exact hq)]
    rw [Nat.sub_zero, getD_replicate_lt _ _ hb, getD_replicate_lt _ _ hq]
  · intro c hc
    rw [onehotRow, List.range_succ, List.map_append]
    simp only [List.map_cons, List.map_nil]
    rw [List.dropLast_concat]
  · rw [onehotRow, List.range_succ, List.map_append]
    simp only [List.map_cons, List.map_nil]
    rw [List.dropLast_concat]
    rw [List.eq_replicate_iff]
    refine ⟨by rw [List.length_map, List.length_range], ?_⟩
    intro x hx
    obtain ⟨j, hj, rfl⟩ := List.mem_map.mp hx
    rw [if_neg (Nat.ne_of_lt (List.mem_range.mp hj))]

end SetCriterion

namespace SetCriterion

/-- Witness for C6 at a concrete one-image, one-query, one-class input. -/
theorem loss_labels_onehot_structure_witness :
    (loss_labels demoExt 1 demoObjNear demoTargetsNear demoAssign 1 false
      = [("loss_ce", LossVal.scalar
          (demoExt.sfl demoObjNear.pred_logits
            ((targetClasses 1 demoObjNear demoTargetsNear demoAssign).map
              (List.map (onehotRow 1)))
            1 * ((demoObjNear.pred_logits.getD 0 []).length : ℚ)))])
  ∧ (∀ b q, b < demoObjNear.pred_logits.length →
      q < (demoObjNear.pred_logits.getD 0 []).length →
      ((targetClasses 1 demoObjNear demoTargetsNear demoAssign).getD b []).getD q 1
        = (matchedClassAt demoTargetsNear demoAssign b q).getD 1)
  ∧ (∀ c, c < 1 →
      onehotRow 1 c = (List.range 1).map fun j => if j = c then (1 : ℚ) else 0)
  ∧ onehotRow 1 1 = List.replicate 1 0 :=
  loss_labels_onehot_structure demoExt 1 demoObjNear demoTargetsNear demoAssign 1
    rfl (by decide) (by decide)

end SetCriterion
